import Mathlib

/-!
Verification of the HSG Asset Archive codec (`src/AssetArchive.h`).

Shallow embedding conventions:
* A byte is a `Nat`; every byte list produced by the model keeps its elements
  below 256.  Multi-byte integers are written little-endian, as on the x86-64
  targets the reference code is written for.
* File I/O is the thin shim the archive code drives: `hsgaa_add_file` receives
  the opened file's bytes directly, `hsgaa_write_archive` returns the byte
  stream it writes, `hsgaa_read_archive` consumes the byte stream it reads.
* `fread` that hits end-of-file reads fewer bytes than requested and leaves the
  rest of the destination indeterminate; the model makes such a read fail
  (`readBytes` returns `none`), so a parse that would consume indeterminate
  bytes is modelled as a failed parse.
* Two machine-level values flow into the observable behaviour and enter the
  model as explicit parameters: the address of the most recently allocated
  chunk buffer (stored into `entry->offset` by line 98 of the source) and the
  byte at machine address 1 (written as the version byte by line 121, which
  passes the integer constant `VERSION = 1` as the source-buffer pointer of
  `fwrite`).
-/

namespace HSGAA

/-- Little-endian bytes of the low 16 bits of `v`. -/
def u16le (v : Nat) : List Nat :=
  [v % 256, v / 256 % 256]

/-- Little-endian bytes of the low 32 bits of `v` (an x86-64 `uint32_t` store). -/
def u32le (v : Nat) : List Nat :=
  [v % 256, v / 256 % 256, v / 65536 % 256, v / 16777216 % 256]

/-- Little-endian bytes of the low 64 bits of `v` (an x86-64 `uint64_t` store). -/
def u64le (v : Nat) : List Nat :=
  [v % 256, v / 256 % 256, v / 65536 % 256, v / 16777216 % 256,
   v / 4294967296 % 256, v / 1099511627776 % 256,
   v / 281474976710656 % 256, v / 72057594037927936 % 256]

/-- Big-endian bytes of the low 32 bits of `v` (zlib stores Adler-32 big-endian). -/
def be32 (v : Nat) : List Nat :=
  [v / 16777216 % 256, v / 65536 % 256, v / 256 % 256, v % 256]

/-- The unsigned little-endian value of a byte list. -/
def readLE (bs : List Nat) : Nat :=
  bs.foldr (fun b acc => acc * 256 + b % 256) 0

/-- The bytes of a C string up to (excluding) its first NUL: what `strlen`,
`strcmp` and `fwrite(name, 1, strlen(name), f)` operate on. -/
def cstr (s : List Nat) : List Nat :=
  s.takeWhile (fun b => b != 0)

/-- `strlen`. -/
def cstrLen (s : List Nat) : Nat :=
  (cstr s).length

/-- One step of the reflected CRC-32 shift: shift right, conditionally xor the
reversed polynomial 0xEDB88320. -/
def crc32Step (c : Nat) : Nat :=
  if c % 2 = 1 then (c / 2) ^^^ 0xEDB88320 else c / 2

/-- Fold one byte into a running CRC-32 state. -/
def crc32Byte (c b : Nat) : Nat :=
  crc32Step^[8] (c ^^^ (b % 256))

/-- Standard CRC-32 (polynomial 0xEDB88320, seed 0, pre/post inversion): the
value zlib's `crc32(crc32(0, NULL, 0), buf, len)` computes. -/
def crc32 (bs : List Nat) : Nat :=
  (bs.foldl crc32Byte 0xFFFFFFFF) ^^^ 0xFFFFFFFF

/-- `hash32` (src/AssetArchive.h:19-22): CRC-32 of the name's bytes up to the
NUL terminator (`crc32(crc, name, strlen(name))`). -/
def hash32 (name : List Nat) : Nat :=
  crc32 (cstr name)

/-- `HSGAAEntry` (src/AssetArchive.h:25-29): the stored name bytes (without the
NUL terminator), the `offset` field and the `size` field. -/
structure HSGAAEntry where
  name : List Nat
  offset : Nat
  size : Nat
deriving DecidableEq

/-- `HSGAAArchive` (src/AssetArchive.h:32-39).  `entry_count` is
`entries.length` and `image_chunk_count` is `chunks.length`; the separate
`image_chunk_sizes` array always holds the lengths of the chunk buffers, so the
model stores just the chunk byte lists. -/
structure HSGAAArchive where
  entries : List HSGAAEntry
  chunks : List (List Nat)
  compress : Bool
deriving DecidableEq

/-- `hsgaa_create_archive` (src/AssetArchive.h:42-52). -/
def hsgaa_create_archive (compress : Bool) : HSGAAArchive :=
  { entries := [], chunks := [], compress := compress }

/-- DEFLATE encoding of a payload using stored (uncompressed) blocks: each block
is a 1-byte header (final-block bit), a 2-byte length, a 2-byte one's-complement
length, then up to 65535 payload bytes; there is always at least one block. -/
def deflateStored (bs : List Nat) : List Nat :=
  if _h : bs.length ≤ 65535 then
    1 :: (u16le bs.length ++ u16le (65535 - bs.length) ++ bs)
  else
    0 :: (u16le 65535 ++ u16le 0 ++ bs.take 65535 ++ deflateStored (bs.drop 65535))
termination_by bs.length
decreasing_by simp [List.length_drop]; omega

/-- Adler-32 checksum, as zlib computes for the stream trailer. -/
def adler32 (bs : List Nat) : Nat :=
  let p := bs.foldl
    (fun (ab : Nat × Nat) b =>
      ((ab.1 + b % 256) % 65521, (ab.2 + ab.1 + b % 256) % 65521))
    (1, 0)
  p.2 * 65536 + p.1

/-- A zlib-format stream for payload `bs`: the 2-byte zlib header (0x78 0x9C for
the default compression level), DEFLATE blocks, then the big-endian Adler-32 of
the payload. -/
def zlibStream (bs : List Nat) : List Nat :=
  120 :: 156 :: (deflateStored bs ++ be32 (adler32 bs))

/-- Modelled from the spec: the repository vendors zlib (`zlib-1.3.1`, included
by src/AssetArchive.h:9 but not present under src/), and §4.3 of the spec calls
for "a DEFLATE-family codec".  zlib's `compress(dest, destLen, source,
sourceLen)` encodes `source` as a zlib-format stream; on entry `*destLen` is the
capacity of `dest`, and the call fails with `Z_BUF_ERROR` — writing nothing —
whenever the encoded stream does not fit in that capacity.  The encoded stream
is modelled by `zlibStream` (header, blocks, trailer), which is never empty. -/
def zlib_compress (src : List Nat) (cap : Nat) : Option (List Nat) :=
  if (zlibStream src).length ≤ cap then some (zlibStream src) else none

/-- `hsgaa_add_file` (src/AssetArchive.h:55-108).  `raw` is the added file's
byte content (the `fopen`/`fread` shim).  `prevChunkAddr` is the machine address
of the most recently allocated chunk buffer, i.e. the pointer value
`archive->image_chunks[image_chunk_count - 1]` that line 98 stores into the new
entry's `offset` field whenever a previous chunk exists (buffer addresses are
chosen by the allocator, so they enter the model as a parameter).  When
compression is requested the source passes `compressed_size`, initialised to 0,
as the destination capacity (line 75 and 79); on compression failure it frees
the buffers and returns with the archive untouched (lines 80-85).  The
`signature` CRC computed on lines 71-72 is never used.  -/
def hsgaa_add_file (archive : HSGAAArchive) (file_path : List Nat)
    (raw : List Nat) (prevChunkAddr : Nat) : HSGAAArchive :=
  let stored? : Option (List Nat) :=
    if archive.compress then zlib_compress raw 0 else some raw
  match stored? with
  | none => archive
  | some stored =>
    let entry : HSGAAEntry :=
      { name := file_path
      , offset := if archive.chunks.length = 0 then 0 else prevChunkAddr % 2 ^ 64
      , size := stored.length }
    { archive with
        entries := archive.entries ++ [entry]
        chunks := archive.chunks ++ [stored] }

/-- `sizeof(HSGAAEntry)` on the LP64 targets the code is written for: an 8-byte
`char *` and two `uint64_t`. -/
def sizeofHSGAAEntry : Nat := 24

/-- The 14 header bytes written by src/AssetArchive.h:118-123: the 4 magic
bytes "AAF\x00"; then `fwrite(VERSION, sizeof(uint8_t), 1, f)`, which passes
the integer constant `VERSION = 1` as the source-buffer *pointer*, so the byte
written is the byte at machine address 1 (`byteAtAddr1`), not the value 1; then
the flags byte (`FLAG_ALL_COMPRESSED` iff `archive->compress`); then the 8-byte
`toc_offset = 4 + 1 + 1 + 8 + sizeof(HSGAAEntry) * entry_count`. -/
def writeHeader (archive : HSGAAArchive) (byteAtAddr1 : Nat) : List Nat :=
  [65, 65, 70, 0]
    ++ [byteAtAddr1 % 256]
    ++ [if archive.compress then 1 else 0]
    ++ u64le (4 + 1 + 1 + 8 + sizeofHSGAAEntry * archive.entries.length)

/-- One TOC record as written by src/AssetArchive.h:133-140: 32-bit `name_hash`,
64-bit `offset`, 64-bit `size`, 32-bit `name_len = strlen(name)`, then the
`name_len` name bytes. -/
def entryRecord (e : HSGAAEntry) : List Nat :=
  u32le (hash32 e.name) ++ u64le e.offset ++ u64le e.size
    ++ u32le (cstrLen e.name) ++ cstr e.name

/-- The TOC bytes written by src/AssetArchive.h:130-141: the low 32 bits of
`entry_count` (a `size_t` written through `sizeof(uint32_t)`, i.e. its low 4
bytes on a little-endian machine), then every entry record in order. -/
def writeTOC (entries : List HSGAAEntry) : List Nat :=
  u32le entries.length ++ (entries.map entryRecord).flatten

/-- `hsgaa_write_archive` (src/AssetArchive.h:111-144) as the byte stream it
writes: header, then every image chunk in order, then the TOC. -/
def hsgaa_write_archive (archive : HSGAAArchive) (byteAtAddr1 : Nat) : List Nat :=
  writeHeader archive byteAtAddr1 ++ archive.chunks.flatten ++ writeTOC archive.entries

/-- Read `n` bytes at position `pos` of stream `bs`.  A read past the end of
the stream returns fewer bytes than requested and leaves the rest of the C
destination object indeterminate; the model makes it fail. -/
def readBytes (bs : List Nat) (pos n : Nat) : Option (List Nat) :=
  if pos + n ≤ bs.length then some ((bs.drop pos).take n) else none

/-- The TOC-entry loop of `hsgaa_read_archive` (src/AssetArchive.h:178-194):
for each of `count` records read the 32-bit hash (stored nowhere), the 64-bit
offset and size, the 32-bit name length and then that many name bytes (the C
code appends a NUL to the name buffer; the model keeps the bytes as read). -/
def readEntries (bs : List Nat) : Nat → Nat → Option (List HSGAAEntry)
  | _, 0 => some []
  | pos, n + 1 =>
    match readBytes bs pos 4, readBytes bs (pos + 4) 8,
          readBytes bs (pos + 12) 8, readBytes bs (pos + 20) 4 with
    | some _nameHash, some offB, some szB, some nlB =>
      match readBytes bs (pos + 24) (readLE nlB) with
      | some nameB =>
        match readEntries bs (pos + 24 + readLE nlB) n with
        | some rest => some (⟨nameB, readLE offB, readLE szB⟩ :: rest)
        | none => none
      | none => none
    | _, _, _, _ => none

/-- `hsgaa_read_archive` (src/AssetArchive.h:147-198) on the archive file's
bytes: check the 4 magic bytes (`strncmp` with `MAGIC`, whose only NUL is its
last byte, is zero exactly when the 4 bytes match), read version (unchecked),
flags and `toc_offset`, seek to `toc_offset`, read the 32-bit entry count and
then the records.  The resulting archive gets `compress` from bit 0 of the
flags and keeps the empty chunk arrays of `hsgaa_create_archive`. -/
def hsgaa_read_archive (bs : List Nat) : Option HSGAAArchive :=
  match readBytes bs 0 4 with
  | none => none
  | some magic =>
    if magic = [65, 65, 70, 0] then
      match readBytes bs 4 1, readBytes bs 5 1, readBytes bs 6 8 with
      | some _version, some flagsB, some tocB =>
        match readBytes bs (readLE tocB) 4 with
        | none => none
        | some cntB =>
          match readEntries bs (readLE tocB + 4) (readLE cntB) with
          | none => none
          | some es =>
            some { hsgaa_create_archive (decide (readLE flagsB % 2 = 1)) with
                     entries := es }
      | _, _, _ => none
    else none

/-- The observable outcome of `hsgaa_extract_file`:  the chunk bytes written to
the output file, the "File not found in archive" error path, or the access
`archive->image_chunks[i]` with `i ≥ image_chunk_count` (an out-of-bounds read,
undefined behaviour in the C code). -/
inductive ExtractResult where
  | ok (bytes : List Nat)
  | notFound
  | chunkIndexOOB
deriving DecidableEq

/-- The scan loop of `hsgaa_extract_file` (src/AssetArchive.h:209-221): the
index of the first entry whose name `strcmp`-equals `file_name`, counting from
`k`. -/
def cLookup : List HSGAAEntry → List Nat → Nat → Option Nat
  | [], _, _ => none
  | e :: es, name, k =>
    if cstr e.name = cstr name then some k else cLookup es name (k + 1)

/-- `hsgaa_extract_file` (src/AssetArchive.h:208-223): scan the entries for the
first `strcmp` match; on a match write `image_chunk_sizes[i]` bytes of
`image_chunks[i]` to the output file, otherwise report "File not found".  The
function performs no reads of the archive stream, no use of `entry.offset` or
`entry.size`, and no decompression. -/
def hsgaa_extract_file (archive : HSGAAArchive) (file_name : List Nat) : ExtractResult :=
  match cLookup archive.entries file_name 0 with
  | none => ExtractResult.notFound
  | some i =>
    match archive.chunks[i]? with
    | some chunk => ExtractResult.ok chunk
    | none => ExtractResult.chunkIndexOOB

/-- `hsgaa_list_entries` (src/AssetArchive.h:201-205): the names printed, in
entry order. -/
def hsgaa_list_entries (archive : HSGAAArchive) : List (List Nat) :=
  archive.entries.map (fun e => cstr e.name)

/-! ## Spec-side TOC description (§4.4 of the spec), for the refinement claim -/

/-- One TOC record as the spec words it: 32-bit `name_hash` equal to the CRC-32
of the name's UTF-8 bytes, 64-bit `offset`, 64-bit `size`, 32-bit
`name_length`, then `name_length` raw UTF-8 name bytes with no terminator. -/
def tocRecordSpec (e : HSGAAEntry) : List Nat :=
  u32le (crc32 e.name) ++ u64le e.offset ++ u64le e.size
    ++ u32le e.name.length ++ e.name

/-- The TOC as the spec words it: a 32-bit entry count followed by the records
of the entries in insertion order. -/
def tocSpec (entries : List HSGAAEntry) : List Nat :=
  u32le entries.length ++ (entries.map tocRecordSpec).flatten

/-! ## Concrete inputs used across the claims -/

/-- The file name "a.bin" of the spec's concrete scenario (§8), as UTF-8. -/
def aName : List Nat := [97, 46, 98, 105, 110]

/-- The spec's concrete scenario: one file "a.bin" with bytes 1, 2, 3, added to
a fresh archive without compression (the first add sees an empty chunk array,
so the address parameter is irrelevant and passed as 0). -/
def builtA : HSGAAArchive :=
  hsgaa_add_file (hsgaa_create_archive false) aName [1, 2, 3] 0

/-- A well-formed archive file with one 3-byte chunk at offset 14 and its TOC
at offset 17 (where the header's `toc_offset` field says it is): one entry
named "a" with offset 14 and size 3, global compression flag set. -/
def validBytes : List Nat :=
  [65, 65, 70, 0] ++ [1] ++ [1] ++ u64le 17 ++ [9, 9, 9]
    ++ u32le 1 ++ u32le 0 ++ u64le 14 ++ u64le 3 ++ u32le 1 ++ [97]

/-- The archive `hsgaa_read_archive` produces from `validBytes`. -/
def readA : HSGAAArchive :=
  { entries := [⟨[97], 14, 3⟩], chunks := [], compress := true }

/-! ## Helper lemmas -/

/-- zlib `compress` into a zero-capacity destination always fails: the encoded
stream begins with the 2-byte zlib header, so it never fits in 0 bytes. -/
theorem zlib_compress_cap_zero (src : List Nat) : zlib_compress src 0 = none := by
  simp [zlib_compress, zlibStream]

/-- A NUL-free byte list is its own C string. -/
theorem cstr_of_nul_free {s : List Nat} (h : 0 ∉ s) : cstr s = s := by
  rw [cstr, List.takeWhile_eq_self_iff]
  intro x hx
  simp only [bne_iff_ne, ne_eq]
  exact fun h0 => h (h0 ▸ hx)

/-- The header is 14 bytes. -/
theorem writeHeader_length (a : HSGAAArchive) (b : Nat) :
    (writeHeader a b).length = 14 := by
  simp [writeHeader, u64le]

/-- Decoding the 4 little-endian bytes of a value below 2^32 gives it back. -/
theorem readLE_u32le {n : Nat} (h : n < 2 ^ 32) : readLE (u32le n) = n := by
  simp only [readLE, u32le, List.foldr_cons, List.foldr_nil]
  omega

/-- The entry-scan loop finds nothing when no entry's name `strcmp`-matches. -/
theorem cLookup_eq_none (es : List HSGAAEntry) (name : List Nat)
    (h : ∀ e ∈ es, cstr e.name ≠ cstr name) :
    ∀ k, cLookup es name k = none := by
  induction es with
  | nil => intro k; rfl
  | cons e es ih =>
    intro k
    rw [cLookup, if_neg (h e (List.mem_cons_self e es))]
    exact ih (fun x hx => h x (List.mem_cons_of_mem e hx)) (k + 1)

/-- The entry-scan loop finds some index when some entry's name matches. -/
theorem cLookup_isSome_of_mem (es : List HSGAAEntry) (name : List Nat)
    (e : HSGAAEntry) (he : e ∈ es) (hm : cstr e.name = cstr name) :
    ∀ k, ∃ i, cLookup es name k = some i := by
  induction es with
  | nil => cases he
  | cons x es ih =>
    intro k
    by_cases hx : cstr x.name = cstr name
    · exact ⟨k, by rw [cLookup, if_pos hx]⟩
    · rcases List.mem_cons.mp he with rfl | he2
      · exact absurd hm hx
      · obtain ⟨i, hi⟩ := ih he2 (k + 1)
        exact ⟨i, by rw [cLookup, if_neg hx]; exact hi⟩

/-- A successfully parsed archive keeps the empty chunk arrays of
`hsgaa_create_archive`: the read path never populates them. -/
theorem read_archive_chunks_nil (bs : List Nat) (a : HSGAAArchive)
    (h : hsgaa_read_archive bs = some a) : a.chunks = [] := by
  unfold hsgaa_read_archive at h
  repeat' split at h
  all_goals simp_all [hsgaa_create_archive]
  exact h.symm ▸ rfl

/-- The record written for a NUL-free name is the record the spec describes. -/
theorem entryRecord_eq_spec (e : HSGAAEntry) (h : 0 ∉ e.name) :
    entryRecord e = tocRecordSpec e := by
  simp [entryRecord, tocRecordSpec, hash32, cstrLen, cstr_of_nul_free h]

/-! ## The claims -/

/-- C1: the round trip fails.  The spec's concrete scenario — one file "a.bin"
with bytes 1, 2, 3 added without compression — builds an archive whose
in-memory extraction does return the original bytes, but re-reading the bytes
written for it yields no archive at all (whatever byte sits at machine address
1): the header's `toc_offset` field (38 = 14 + sizeof(HSGAAEntry)) does not
point at the TOC (which is at 17), so the reader misparses the entry count and
runs off the end of the file.  Extraction by name from the written-then-read
archive therefore cannot return the original bytes. -/
theorem roundtrip_written_archive_unreadable :
    (∀ b : Nat, hsgaa_read_archive (hsgaa_write_archive builtA b) = none) ∧
      hsgaa_extract_file builtA aName = ExtractResult.ok [1, 2, 3] :=
  ⟨fun _b => rfl, rfl⟩

/-- C2: entry offsets are neither 14-based nor contiguous.  Adding "a.bin"
(3 bytes) and then a second file (2 bytes, with the previous chunk buffer
allocated at address 7777) yields offsets 0 and 7777: line 98 of the source
stores 0 for the first entry and the *memory address* of the previous chunk
buffer for later entries, not `14` and `14 + 3` as the claim states. -/
theorem add_file_offset_not_contiguous :
    ((hsgaa_add_file builtA [98] [4, 5] 7777).entries.map HSGAAEntry.offset)
      = [0, 7777] :=
  rfl

/-- C3: the writer does emit header, then the chunks in order, then the TOC
(the TOC of `builtA` really starts at byte 17 = 14 + 3 chunk bytes), but the
header's `toc_offset` field holds 38 = 14 + sizeof(HSGAAEntry) · 1, computed
from the in-memory struct size rather than the stored chunk bytes, so it does
not equal header length plus total chunk bytes. -/
theorem write_toc_offset_field_mismatch :
    readLE (((hsgaa_write_archive builtA 0).drop 6).take 8) = 38 ∧
      (hsgaa_write_archive builtA 0).drop 17 = writeTOC builtA.entries ∧
      14 + (builtA.chunks.map List.length).sum = 17 ∧ (38 : Nat) ≠ 17 :=
  ⟨rfl, rfl, rfl, by decide⟩

/-- C4: extraction performs no stream I/O and no decompression.  On the
well-formed compressed archive file `validBytes` the reader returns `readA`
(flag set, entry "a" with offset 14 and size 3), but extracting "a" accesses
`image_chunks[0]` of an empty chunk array (out of bounds) instead of seeking
to offset 14 and reading 3 bytes; and if an in-memory chunk is present,
extraction returns its bytes verbatim even though the compression flag is set
(the source never calls any decompression routine, and `hsgaa_extract_file`
takes no stream and never touches `entry.offset` or `entry.size`). -/
theorem extract_no_stream_no_decompress :
    hsgaa_read_archive validBytes = some readA ∧
      readA.compress = true ∧
      hsgaa_extract_file readA [97] = ExtractResult.chunkIndexOOB ∧
      hsgaa_extract_file ⟨readA.entries, [[9, 9, 9]], true⟩ [97]
        = ExtractResult.ok [9, 9, 9] :=
  ⟨rfl, rfl, rfl, rfl⟩

/-- C5: adding a file to a compress-enabled archive always fails and leaves
the archive unchanged: the source passes `compressed_size = 0` as the
destination capacity of zlib `compress`, which therefore returns an error for
every input, and the error path returns before the entry and chunk arrays are
touched. -/
theorem add_file_compressed_always_fails (a : HSGAAArchive)
    (p raw : List Nat) (addr : Nat) (h : a.compress = true) :
    hsgaa_add_file a p raw addr = a := by
  simp [hsgaa_add_file, h, zlib_compress_cap_zero]

/-- Witness for C5: on a fresh compress-enabled archive, adding a file with
bytes 1, 2, 3 returns the archive unchanged. -/
theorem add_file_compressed_always_fails_witness :
    (hsgaa_create_archive true).compress = true ∧
      hsgaa_add_file (hsgaa_create_archive true) [97] [1, 2, 3] 0
        = hsgaa_create_archive true :=
  ⟨rfl, add_file_compressed_always_fails (hsgaa_create_archive true) [97]
    [1, 2, 3] 0 rfl⟩

/-- C6: every archive the reader produces has an empty chunk array (the read
path never populates `image_chunks`/`image_chunk_count`), so extracting any
name that matches an entry reaches the `image_chunks[i]` access with
`i ≥ image_chunk_count = 0` — an out-of-bounds index. -/
theorem read_archive_no_chunks_extract_oob (bs : List Nat) (a : HSGAAArchive)
    (h : hsgaa_read_archive bs = some a) :
    a.chunks = [] ∧
      ∀ name e, e ∈ a.entries → cstr e.name = cstr name →
        hsgaa_extract_file a name = ExtractResult.chunkIndexOOB := by
  have hc := read_archive_chunks_nil bs a h
  refine ⟨hc, fun name e he hm => ?_⟩
  obtain ⟨i, hi⟩ := cLookup_isSome_of_mem a.entries name e he hm 0
  simp [hsgaa_extract_file, hi, hc]

/-- Witness for C6: reading `validBytes` yields `readA`, which has no chunks,
and extracting its entry "a" is an out-of-bounds chunk access. -/
theorem read_archive_no_chunks_extract_oob_witness :
    readA.chunks = [] ∧
      hsgaa_extract_file readA [97] = ExtractResult.chunkIndexOOB :=
  ⟨(read_archive_no_chunks_extract_oob validBytes readA rfl).1,
   (read_archive_no_chunks_extract_oob validBytes readA rfl).2 [97]
     ⟨[97], 14, 3⟩ (by decide) rfl⟩

/-- C7: the header is 14 bytes with the magic, flags and TOC-offset fields as
claimed, but its version byte (index 4) is not the constant 1: line 121 passes
the integer constant `VERSION = 1` to `fwrite` as the source-buffer *pointer*,
so the byte written is the byte at machine address 1 — for any archive the
written byte equals that (modelled) byte, and when that byte is 0 the stream's
version field is 0, not 1. -/
theorem header_version_byte_not_one :
    (∀ (a : HSGAAArchive) (b : Nat),
        (hsgaa_write_archive a b)[4]? = some (b % 256)) ∧
      (hsgaa_write_archive (hsgaa_create_archive false) 0)[4]? = some 0 ∧
      (0 : Nat) ≠ 1 :=
  ⟨fun a b => rfl, rfl, by decide⟩

/-- C8: the serialized TOC is exactly what the spec describes.  For every
archive whose entry names are NUL-free (UTF-8 names of files, as produced by
`hsgaa_add_file`) the bytes the writer emits after the 14-byte header and the
chunk bytes equal the spec-side TOC — 32-bit count, then per entry in
insertion order a 32-bit CRC-32 name hash, 64-bit offset, 64-bit size, 32-bit
name length and the raw name bytes — and when there are fewer than 2^32
entries the declared count decodes to exactly the number of records
serialized. -/
theorem write_toc_matches_spec (a : HSGAAArchive) (b1 : Nat)
    (hnul : ∀ e ∈ a.entries, 0 ∉ e.name)
    (hcount : a.entries.length < 2 ^ 32) :
    (hsgaa_write_archive a b1).drop (14 + (a.chunks.map List.length).sum)
        = tocSpec a.entries ∧
      readLE ((tocSpec a.entries).take 4) = (a.entries.map entryRecord).length := by
  constructor
  · rw [hsgaa_write_archive]
    rw [List.drop_left' (by simp [writeHeader_length])]
    rw [writeTOC, tocSpec, List.map_congr_left (fun e he => entryRecord_eq_spec e (hnul e he))]
  · rw [tocSpec, List.take_left' (by simp [u32le])]
    rw [readLE_u32le hcount, List.length_map]

/-- Witness for C8: the archive of the concrete scenario (one file "a.bin",
3 chunk bytes) satisfies both hypotheses and both conclusions. -/
theorem write_toc_matches_spec_witness :
    (∀ e ∈ builtA.entries, 0 ∉ e.name) ∧ builtA.entries.length < 2 ^ 32 ∧
      (hsgaa_write_archive builtA 0).drop
          (14 + (builtA.chunks.map List.length).sum) = tocSpec builtA.entries ∧
      readLE ((tocSpec builtA.entries).take 4)
        = (builtA.entries.map entryRecord).length :=
  ⟨by decide, by decide,
   (write_toc_matches_spec builtA 0 (by decide) (by decide)).1,
   (write_toc_matches_spec builtA 0 (by decide) (by decide)).2⟩

/-- C9: a stream whose first 4 bytes are not the magic "AAF\x00" is rejected:
the reader returns no archive (and hence no entries). -/
theorem read_bad_magic_fails (bs : List Nat)
    (h : bs.take 4 ≠ [65, 65, 70, 0]) : hsgaa_read_archive bs = none := by
  unfold hsgaa_read_archive
  cases hr : readBytes bs 0 4 with
  | none => rfl
  | some m =>
    have hm : m = bs.take 4 := by
      rw [readBytes] at hr
      split at hr
      · cases hr; rw [List.drop_zero]
      · cases hr
    simp only [hm, if_neg h]

/-- Witness for C9: the 4 bytes "BAD!" are not the magic, and reading them
fails. -/
theorem read_bad_magic_fails_witness :
    [66, 65, 68, 33].take 4 ≠ [65, 65, 70, 0] ∧
      hsgaa_read_archive [66, 65, 68, 33] = none :=
  ⟨by decide, read_bad_magic_fails [66, 65, 68, 33] (by decide)⟩

/-- C10: extracting a name that `strcmp`-matches no entry reports "File not
found": the scan loop completes without a match, the chunk array is never
indexed (the result is `notFound` for every possible chunk-array content, so
no chunk I/O can have occurred), and the archive is untouched (the C function
only reads through the archive pointer; the model is a pure function of it). -/
theorem extract_missing_not_found (a : HSGAAArchive) (name : List Nat)
    (h : ∀ e ∈ a.entries, cstr e.name ≠ cstr name) :
    hsgaa_extract_file a name = ExtractResult.notFound ∧
      ∀ chunks2 : List (List Nat),
        hsgaa_extract_file ⟨a.entries, chunks2, a.compress⟩ name
          = ExtractResult.notFound := by
  have hn := cLookup_eq_none a.entries name h
  exact ⟨by simp [hsgaa_extract_file, hn 0],
         fun chunks2 => by simp [hsgaa_extract_file, hn 0]⟩

/-- Witness for C10: the built archive holds only "a.bin", so extracting
"b.bin" reports not-found. -/
theorem extract_missing_not_found_witness :
    (∀ e ∈ builtA.entries, cstr e.name ≠ cstr [98, 46, 98, 105, 110]) ∧
      hsgaa_extract_file builtA [98, 46, 98, 105, 110]
        = ExtractResult.notFound :=
  ⟨by decide,
   (extract_missing_not_found builtA [98, 46, 98, 105, 110] (by decide)).1⟩

end HSGAA
